import Mathlib

/-!
Verification development for the wbxml codec (github.com/gleroi/wbxml).

The Go sources are shallowly embedded: bytes are naturals (0..255 on the
wire), byte streams are lists consumed from the front, the decoder goroutine
that feeds the token channel is a state machine whose emitted-token list is
the sequence of channel sends, and Go panics/errors are explicit error
values.  Names are modelled as byte lists (Go strings are byte slices).
The recursive decoder state machine takes a fuel argument so that every
definition is structurally recursive and computable by the kernel; fuel is
chosen large enough for the concrete inputs evaluated here, and the
universal theorems quantify over every fuel value.
-/

namespace Wbxml

/-! ## Global tokens (wbxml.go constant block, current glo* names) -/

def gloSwitchPage : Nat := 0x00
def gloEnd : Nat := 0x01
def gloEntity : Nat := 0x02
def gloStrI : Nat := 0x03
def gloLiteral : Nat := 0x04
def gloExtI0 : Nat := 0x40
def gloExtI1 : Nat := 0x41
def gloExtI2 : Nat := 0x42
def gloPi : Nat := 0x43
def gloLiteralC : Nat := 0x44
def gloExtT0 : Nat := 0x80
def gloExtT1 : Nat := 0x81
def gloExtT2 : Nat := 0x82
def gloStrT : Nat := 0x83
def gloLiteralA : Nat := 0x84
def gloExt0 : Nat := 0xC0
def gloExt1 : Nat := 0xC1
def gloExt2 : Nat := 0xC2
def gloOpq : Nat := 0xC3
def gloLiteralAC : Nat := 0xC4

def tagAttrMask : Nat := 0x80
def tagContentMask : Nat := 0x40

/-! ## Data model (wbxml.go) -/

deriving instance DecidableEq for Except

/-- Attr models wbxml.Attr; Go strings are byte lists here. -/
structure Attr where
  name : List Nat
  value : List Nat
deriving DecidableEq, Repr

/-- Token models the wbxml.Token interface: one constructor per concrete
token type (StartElement with its Content flag, EndElement, CharData,
Opaque, Entity, ProcInst). -/
inductive Token where
  | start (name : List Nat) (attrs : List Attr) (content : Bool)
  | endElt (name : List Nat)
  | charData (data : List Nat)
  | opq (data : List Nat)
  | entity (code : Nat)
  | procInst (target : List Nat) (inst : List Nat)
deriving DecidableEq, Repr

/-- Header models wbxml.Header (version u8, public id u32, charset u32,
flat NUL-separated string table). -/
structure Header where
  Version : Nat
  PublicID : Nat
  Charset : Nat
  StringTable : List Nat
deriving DecidableEq, Repr

/-- CodePage: code byte to name; modelled as an association list so that the
scan order of the encoder's linear lookup is deterministic. -/
abbrev CodePage := List (Nat × List Nat)

/-- CodeSpace: page id to CodePage (Go: map[byte]CodePage). -/
abbrev CodeSpace := List (Nat × CodePage)

/-- Decoder-side errors (Go error values raised through panicErr). -/
inductive DecErr where
  | eof
  | unknownPage (page : Nat)
  | unknownCode (page code : Nat)
  | badStringRef (i max : Nat)
  | noNullTerminator
  | literalNotImplemented
  | extensionNotImplemented (b : Nat)
  | unexpectedAttrValue
  | unknownCharDataTag (b : Nat)
  | mbUintTooLong (max : Nat)
  | shortRead (expected got : Nat)
  | runePanic
  | fuelExhausted
deriving DecidableEq, Repr

/-- Encoder-side errors. indexPanic is the Go runtime index-out-of-range
panic raised when writeMbUint overruns its 8-byte buffer. -/
inductive EncErr where
  | tooBig (v max : Nat)
  | unknownTag (t : List Nat)
  | notImplemented
  | indexPanic
deriving DecidableEq, Repr

/-- Modelled from the spec: the current two-argument CodeSpace.Name(page,
code) method is absent from src/ (only one-argument historical versions and
the callers survive). Spec 4.2: direct map indexing, failing with
UnknownPage / UnknownCode carrying the offending ids. -/
def CodeSpace.name (space : CodeSpace) (page code : Nat) : Except DecErr (List Nat) :=
  match space.lookup page with
  | none => .error (.unknownPage page)
  | some p =>
    match p.lookup code with
    | none => .error (.unknownCode page code)
    | some n => .ok n

/-! ## Primitive codec (src/unnamed/part_000) -/

/-- readByte: one byte off the reader; io.EOF at end of input. -/
def readByte : List Nat → Except DecErr (Nat × List Nat)
  | [] => .error .eof
  | b :: rest => .ok (b, rest)

/-- mbUint loop body (part_000 mbUint): up to max bytes, 7 bits each,
MSB-first, continuation bit 0x80; the accumulator is a uint64. -/
def mbUintGo (max result : Nat) : Nat → List Nat → Except DecErr (Nat × List Nat)
  | 0, _ => .error (.mbUintTooLong max)
  | _ + 1, [] => .error .eof
  | n + 1, b :: rest =>
    let result := result * 128 % 2 ^ 64 + b % 128
    if b &&& 128 = 0 then .ok (result, rest)
    else mbUintGo max result n rest

def mbUint (max : Nat) (input : List Nat) : Except DecErr (Nat × List Nat) :=
  mbUintGo max 0 max input

/-- mbUint32: mbUint with max 4, result truncated to uint32. -/
def mbUint32 (input : List Nat) : Except DecErr (Nat × List Nat) :=
  match mbUint 4 input with
  | .error e => .error e
  | .ok (v, rest) => .ok (v % 2 ^ 32, rest)

/-- writeMbUint loop (part_000 writeMbUint): the Go loop writes buf[8-i]
for i = 2.. while i <= max and v > 0; buf has only eight cells, so i = 9
writes buf[-1], a runtime index-out-of-range panic (indexPanic). The fuel
argument counts remaining loop entries; it equals max+2-i on every call
reached from writeMbUint, so the 0 case coincides with the post-loop
check. Bytes are accumulated most-significant-last-written first. -/
def writeMbUintLoop (max : Nat) : Nat → Nat → Nat → List Nat → Except EncErr (List Nat)
  | 0, _, v, acc => if v ≠ 0 then .error (.tooBig v max) else .ok acc
  | fuel + 1, i, v, acc =>
    if i ≤ max ∧ 0 < v then
      if 8 < i then .error .indexPanic
      else writeMbUintLoop max fuel (i + 1) (v / 128) ((128 + v % 128) :: acc)
    else if v ≠ 0 then .error (.tooBig v max) else .ok acc

/-- writeMbUint: buf[7] gets the low 7 bits, then the loop above. -/
def writeMbUint (v max : Nat) : Except EncErr (List Nat) :=
  writeMbUintLoop max max 2 (v / 128) [v % 128]

def writeMbUint32 (v : Nat) : Except EncErr (List Nat) :=
  writeMbUint (v % 2 ^ 32) 4

/-- readString (part_000): bytes up to and excluding a NUL terminator. -/
def readString : List Nat → Except DecErr (List Nat × List Nat)
  | [] => .error .eof
  | b :: rest =>
    if b = 0 then .ok ([], rest)
    else
      match readString rest with
      | .error e => .error e
      | .ok (s, r) => .ok (b :: s, r)

/-- readSlice (part_000): length bytes; a bytes.Reader returns io.EOF only
when nothing at all is available, and a short read is reported by the
explicit length check. -/
def readSlice (length : Nat) (input : List Nat) : Except DecErr (List Nat × List Nat) :=
  if length = 0 then .ok ([], input)
  else if input.length = 0 then .error .eof
  else if input.length < length then .error (.shortRead length input.length)
  else .ok (input.take length, input.drop length)

/-- Table read in readHeader: make([]byte, length) then one r.Read(buf);
a short read leaves the tail of buf zeroed and is not detected. -/
def readTable (length : Nat) (input : List Nat) : Except DecErr (List Nat × List Nat) :=
  if length = 0 then .ok ([], input)
  else if input.length = 0 then .error .eof
  else if input.length < length then
    .ok (input ++ List.replicate (length - input.length) 0, [])
  else .ok (input.take length, input.drop length)

/-- Decoder.GetString (decoder.go): scan the string table from offset i to
the first NUL; out-of-range offsets and missing terminators are errors. -/
def getString (tbl : List Nat) (i : Nat) : Except DecErr (List Nat) :=
  if tbl.length ≤ i then .error (.badStringRef i tbl.length)
  else
    match (tbl.drop i).findIdx? (fun b => b = 0) with
    | some k => .ok ((tbl.drop i).take k)
    | none => .error .noNullTerminator

/-! ## Canonical multi-byte-unsigned encoding (for statements about
writeMbUint's output) -/

/-- Continuation bytes (bit 0x80 set) of the base-128 big-endian digits of
v, most significant first; empty for v = 0. -/
def mbuContBytes (v : Nat) : List Nat :=
  if h : v = 0 then [] else mbuContBytes (v / 128) ++ [128 + v % 128]
decreasing_by exact Nat.div_lt_self (Nat.pos_of_ne_zero h) (by norm_num)

/-- Canonical MBU encoding: continuation bytes of v shifted right by one
group, then the final byte v mod 128 with the continuation bit clear. -/
def mbuCanon (v : Nat) : List Nat :=
  mbuContBytes (v / 128) ++ [v % 128]

/-- Number of base-128 digit groups above the lowest (0 for v = 0). -/
def cg (v : Nat) : Nat :=
  if h : v = 0 then 0 else cg (v / 128) + 1
decreasing_by exact Nat.div_lt_self (Nat.pos_of_ne_zero h) (by norm_num)

/-! ## UTF-8 folding of entities (decoder.go charData, Go unicode/utf8) -/

/-- utf8.RuneLen(rune(c)) for a uint32 c converted through rune (int32):
none models the -1 result (negative rune, surrogate, above MaxRune), which
makes the subsequent buf[:rlen] slice panic. -/
def utf8RuneLen (c : Nat) : Option Nat :=
  if c < 0x80 then some 1
  else if c < 0x800 then some 2
  else if 0xD800 ≤ c ∧ c ≤ 0xDFFF then none
  else if c < 0x10000 then some 3
  else if c ≤ 0x10FFFF then some 4
  else none

/-- utf8.EncodeRune for a valid rune. -/
def utf8Encode (c : Nat) : List Nat :=
  if c < 0x80 then [c]
  else if c < 0x800 then [0xC0 + c / 64, 0x80 + c % 64]
  else if c < 0x10000 then [0xE0 + c / 4096, 0x80 + c / 64 % 64, 0x80 + c % 64]
  else [0xF0 + c / 262144, 0x80 + c / 4096 % 64, 0x80 + c / 64 % 64, 0x80 + c % 64]

/-! ## Token decoder (decoder.go, current version) -/

/-- Mutable decoder page state (d.tagPage / d.attrPage). -/
structure DSt where
  tagPage : Nat
  attrPage : Nat
deriving DecidableEq, Repr

/-- Immutable decoder environment: the two code spaces and the string
table (d.Header.StringTable, fixed once the header is read). -/
structure Env where
  tags : CodeSpace
  attrs : CodeSpace
  tbl : List Nat
deriving DecidableEq, Repr

/-- Decoder.charData (decoder.go 697-727): grow the pending buffer from a
STR_I / STR_T / ENTITY construct. A nil buffer is the empty list (the Go
nil-pointer check on line 698 never fires, and appending zero bytes to a
nil slice keeps it nil). An ENTITY met with a non-empty buffer is folded
as UTF-8 (an invalid code point panics on the buf[:-1] slice); with an
empty buffer a standalone Entity token is sent. Returns the tokens sent,
then the new buffer and remaining input. -/
def charDataGo (tbl : List Nat) (c : List Nat) (b : Nat) (input : List Nat) :
    List Token × Except DecErr (List Nat × List Nat) :=
  if b = gloStrI then
    match readString input with
    | .error e => ([], .error e)
    | .ok (s, rest) => ([], .ok (c ++ s, rest))
  else if b = gloStrT then
    match mbUint32 input with
    | .error e => ([], .error e)
    | .ok (idx, rest) =>
      match getString tbl idx with
      | .error e => ([], .error e)
      | .ok s => ([], .ok (c ++ s, rest))
  else if b = gloEntity then
    match mbUint32 input with
    | .error e => ([], .error e)
    | .ok (code, rest) =>
      if 0 < c.length then
        match utf8RuneLen code with
        | none => ([], .error .runePanic)
        | some _ => ([], .ok (c ++ utf8Encode code, rest))
      else ([Token.entity code], .ok (c, rest))
  else ([], .error (.unknownCharDataTag b))

/-- Decoder.sendCharData (decoder.go 690-695): flush the pending buffer as
one CharData token when it is non-nil. -/
def flushCD (c : List Nat) : List Token :=
  if c = [] then [] else [Token.charData c]

/-- Decoder.readAttrValue (decoder.go 632-655): accumulate an attribute
value until END or a byte below 128 (the next attribute start); bytes at
or above 128 are attribute-value codes whose names are appended. Returns
(tokens sent, (value bytes, terminating byte, remaining input)). -/
def readAttrValueF (env : Env) : Nat → DSt → List Nat → List Nat →
    List Token × Except DecErr (List Nat × Nat × List Nat)
  | 0, _, _, _ => ([], .error .fuelExhausted)
  | fuel + 1, st, c, input =>
    match readByte input with
    | .error e => ([], .error e)
    | .ok (b, rest) =>
      if b = gloStrI ∨ b = gloStrT ∨ b = gloEntity then
        match charDataGo env.tbl c b rest with
        | (toks, .error e) => (toks, .error e)
        | (toks, .ok (c1, rest1)) =>
          let (toks2, res) := readAttrValueF env fuel st c1 rest1
          (toks ++ toks2, res)
      else if b = gloExt0 ∨ b = gloExt1 ∨ b = gloExt2 ∨
          b = gloExtI0 ∨ b = gloExtI1 ∨ b = gloExtI2 ∨
          b = gloExtT0 ∨ b = gloExtT1 ∨ b = gloExtT2 then
        ([], .error (.extensionNotImplemented b))
      else if b = gloEnd then ([], .ok (c, b, rest))
      else if b < 128 then ([], .ok (c, b, rest))
      else
        match env.attrs.name st.attrPage b with
        | .error e => ([], .error e)
        | .ok nm =>
          let (toks2, res) := readAttrValueF env fuel st (c ++ nm) rest
          (toks2, res)

/-- Decoder.attributes loop (decoder.go 599-630) with the pending byte b.
On SWITCH_PAGE the Go code updates the attribute page but never refreshes
b, so it keeps consuming every following byte as a page index. Returns
(tokens sent, (attributes, state, remaining input)). -/
def attrLoopF (env : Env) : Nat → DSt → List Attr → Nat → List Nat →
    List Token × Except DecErr (List Attr × DSt × List Nat)
  | 0, _, _, _, _ => ([], .error .fuelExhausted)
  | fuel + 1, st, acc, b, input =>
    if b = gloSwitchPage then
      match readByte input with
      | .error e => ([], .error e)
      | .ok (idx, rest) => attrLoopF env fuel { st with attrPage := idx } acc b rest
    else if b = gloLiteral then
      match mbUint32 input with
      | .error e => ([], .error e)
      | .ok (idx, rest) =>
        match getString env.tbl idx with
        | .error e => ([], .error e)
        | .ok nm =>
          match readAttrValueF env fuel st [] rest with
          | (toks, .error e) => (toks, .error e)
          | (toks, .ok (value, b1, rest1)) =>
            let (toks2, res) :=
              attrLoopF env fuel st (acc ++ [{ name := nm, value := value }]) b1 rest1
            (toks ++ toks2, res)
    else if b = gloEnd then ([], .ok (acc, st, input))
    else if 128 ≤ b then ([], .error .unexpectedAttrValue)
    else
      match env.attrs.name st.attrPage b with
      | .error e => ([], .error e)
      | .ok nm =>
        match readAttrValueF env fuel st [] input with
        | (toks, .error e) => (toks, .error e)
        | (toks, .ok (value, b1, rest1)) =>
          let (toks2, res) :=
            attrLoopF env fuel st (acc ++ [{ name := nm, value := value }]) b1 rest1
          (toks ++ toks2, res)

/-- Mutually recursive pair Decoder.element / Decoder.content, combined
into one fuel-indexed function so the recursion is structural. -/
inductive EC where
  | elem (b : Nat)
  | cont (c : List Nat)
deriving DecidableEq, Repr

/-- Decoder.element (decoder.go 576-597) and Decoder.content (657-688).
element: SWITCH_PAGE sets the tag page and returns without emitting;
LITERAL variants are unimplemented; otherwise the byte is a tag whose name
is looked up on the current tag page, attributes are parsed when bit 0x80
is set (their tokens precede the StartElement send), content is parsed
when bit 0x40 is set, and the EndElement is always sent.
content: accumulate STR_I / STR_T / ENTITY into the pending CharData
buffer; OPAQUE, END and element starts flush it; anything else recurses
into element. Returns (tokens sent, (state, remaining input)). -/
def ecF (env : Env) : Nat → EC → DSt → List Nat →
    List Token × Except DecErr (DSt × List Nat)
  | 0, _, _, _ => ([], .error .fuelExhausted)
  | fuel + 1, .elem b, st, input =>
    if b = gloSwitchPage then
      match readByte input with
      | .error e => ([], .error e)
      | .ok (idx, rest) => ([], .ok ({ st with tagPage := idx }, rest))
    else if b = gloLiteral ∨ b = gloLiteralA ∨ b = gloLiteralC ∨ b = gloLiteralAC then
      ([], .error .literalNotImplemented)
    else
      match env.tags.name st.tagPage (b &&& 0x3F) with
      | .error e => ([], .error e)
      | .ok nm =>
        match (if b &&& tagAttrMask = tagAttrMask then
            match readByte input with
            | .error e => (([] : List Token), Except.error e)
            | .ok (b0, rest0) => attrLoopF env fuel st [] b0 rest0
          else ([], Except.ok ([], st, input))) with
        | (toksA, .error e) => (toksA, .error e)
        | (toksA, .ok (attrs, st1, rest1)) =>
          let startTok := Token.start nm attrs false
          if b &&& tagContentMask = tagContentMask then
            match ecF env fuel (.cont []) st1 rest1 with
            | (toksC, .error e) => (toksA ++ [startTok] ++ toksC, .error e)
            | (toksC, .ok (st2, rest2)) =>
              (toksA ++ [startTok] ++ toksC ++ [Token.endElt nm], .ok (st2, rest2))
          else
            (toksA ++ [startTok, Token.endElt nm], .ok (st1, rest1))
  | fuel + 1, .cont c, st, input =>
    match readByte input with
    | .error e => ([], .error e)
    | .ok (b, rest) =>
      if b = gloStrI ∨ b = gloStrT ∨ b = gloEntity then
        match charDataGo env.tbl c b rest with
        | (toks, .error e) => (toks, .error e)
        | (toks, .ok (c1, rest1)) =>
          match ecF env fuel (.cont c1) st rest1 with
          | (toks2, res) => (toks ++ toks2, res)
      else if b = gloOpq then
        match mbUint32 rest with
        | .error e => (flushCD c, .error e)
        | .ok (len, rest1) =>
          match readSlice len rest1 with
          | .error e => (flushCD c, .error e)
          | .ok (data, rest2) =>
            match ecF env fuel (.cont []) st rest2 with
            | (toks2, res) => (flushCD c ++ [Token.opq data] ++ toks2, res)
      else if b = gloExt0 ∨ b = gloExt1 ∨ b = gloExt2 ∨
          b = gloExtI0 ∨ b = gloExtI1 ∨ b = gloExtI2 ∨
          b = gloExtT0 ∨ b = gloExtT1 ∨ b = gloExtT2 then
        (flushCD c, .error (.extensionNotImplemented b))
      else if b = gloEnd then (flushCD c, .ok (st, rest))
      else
        match ecF env fuel (.elem b) st rest with
        | (toksE, .error e) => (flushCD c ++ toksE, .error e)
        | (toksE, .ok (st1, rest1)) =>
          match ecF env fuel (.cont []) st1 rest1 with
          | (toks2, res) => (flushCD c ++ toksE ++ toks2, res)

def elementF (env : Env) (fuel : Nat) (st : DSt) (b : Nat) (input : List Nat) :
    List Token × Except DecErr (DSt × List Nat) :=
  ecF env fuel (.elem b) st input

def contentF (env : Env) (fuel : Nat) (st : DSt) (c : List Nat) (input : List Nat) :
    List Token × Except DecErr (DSt × List Nat) :=
  ecF env fuel (.cont c) st input

/-- The pre/post-element PI skipping loops of Decoder.body: read bytes,
skipping PI bytes (piStar is a no-op), and return the first non-PI byte. -/
def skipPis : List Nat → Except DecErr (Nat × List Nat)
  | [] => .error .eof
  | b :: rest => if b = gloPi then skipPis rest else .ok (b, rest)

/-- Decoder.body (decoder.go 548-571): skip PIs, one element, then skip
trailing PIs; the byte that ends the trailing loop is discarded. -/
def bodyF (env : Env) (fuel : Nat) (st : DSt) (input : List Nat) :
    List Token × Except DecErr (DSt × List Nat) :=
  match skipPis input with
  | .error e => ([], .error e)
  | .ok (b, rest) =>
    match elementF env fuel st b rest with
    | (toks, .error e) => (toks, .error e)
    | (toks, .ok (st1, rest1)) =>
      match skipPis rest1 with
      | .error e => (toks, .error e)
      | .ok (_, rest2) => (toks, .ok (st1, rest2))

/-- Decoder.readHeader (decoder.go 512-546). When the public id is zero a
second MBU32 is read into it; the error of that second read is dropped by
the Go code (err is overwritten by the charset read), the value 0 is kept,
and the reader stays where the failed read left it: io.EOF consumed
everything, the too-long error consumed exactly four bytes. -/
def readHeaderModel (input : List Nat) : Except DecErr (Header × List Nat) :=
  match readByte input with
  | .error e => .error e
  | .ok (version, i1) =>
    match mbUint32 i1 with
    | .error e => .error e
    | .ok (pid0, i2) =>
      let (pid, i3) :=
        if pid0 = 0 then
          match mbUint32 i2 with
          | .ok (v, r) => (v, r)
          | .error .eof => (0, ([] : List Nat))
          | .error _ => (0, i2.drop 4)
        else (pid0, i2)
      match mbUint32 i3 with
      | .error e => .error e
      | .ok (charset, i4) =>
        match mbUint32 i4 with
        | .error e => .error e
        | .ok (len, i5) =>
          match readTable len i5 with
          | .error e => .error e
          | .ok (tbl, i6) =>
            .ok ({ Version := version, PublicID := pid, Charset := charset,
                   StringTable := tbl }, i6)

/-- Raw result of the decode goroutine: tokens sent to the channel, and
either normal completion or the panicked error. -/
def decodeRaw (tags attrs : CodeSpace) (fuel : Nat) (input : List Nat) :
    List Token × Except DecErr Unit :=
  match readHeaderModel input with
  | .error e => ([], .error e)
  | .ok (h, rest) =>
    match bodyF { tags := tags, attrs := attrs, tbl := h.StringTable } fuel
        { tagPage := 0, attrPage := 0 } rest with
    | (toks, .error e) => (toks, .error e)
    | (toks, .ok _) => (toks, .ok ())

/-- Observable fate of the token channel after the produced tokens.
done: run returned normally, the channel is closed with d.err nil.
closedEOF: the recovered panic was io.EOF, d.err = io.EOF, channel closed.
panicked: any other error is re-panicked by the deferred handler in
Decoder.run (decoder.go 490-509); the channel is never closed. -/
inductive Outcome where
  | done
  | closedEOF
  | panicked (e : DecErr)
deriving DecidableEq, Repr

/-- The recover dispatch of Decoder.run. -/
def outcomeOf : Except DecErr Unit → Outcome
  | .ok _ => .done
  | .error e => if e = .eof then .closedEOF else .panicked e

/-- Fuel used for a whole document: every loop iteration of the decoder
consumes at least one input byte and each nesting step costs one extra
unit, so twice the length plus a constant covers every concrete input
evaluated below. -/
def runModel (tags attrs : CodeSpace) (input : List Nat) : List Token × Outcome :=
  ((decodeRaw tags attrs (2 * input.length + 8) input).1,
   outcomeOf (decodeRaw tags attrs (2 * input.length + 8) input).2)

/-- Result of one Decoder.Token() call. -/
inductive TokenRes where
  | tok (t : Token)
  | eos (err : Option DecErr)
  | blocked
deriving DecidableEq, Repr

/-- Semantics of the n-th Decoder.Token() call against the channel: the
produced tokens are received in order; once the channel is closed the call
returns (nil, d.err); if the producer panicked without closing the
channel, the receive never completes. -/
def tokenCall (r : List Token × Outcome) (n : Nat) : TokenRes :=
  match r.1.get? n with
  | some t => .tok t
  | none =>
    match r.2 with
    | .done => .eos none
    | .closedEOF => .eos (some .eof)
    | .panicked _ => .blocked

/-! ## Token encoder (encoder.go) -/

/-- Encoder state: current tag and attribute pages, the suppress-end stack
(ignoreEnd, top at the back), and the header set by EncodeHeader. -/
structure ESt where
  tagPage : Nat
  attrPage : Nat
  ignoreEnd : List (List Nat)
  header : Header
deriving DecidableEq, Repr

def est0 : ESt :=
  { tagPage := 0, attrPage := 0, ignoreEnd := [],
    header := { Version := 0, PublicID := 0, Charset := 0, StringTable := [] } }

/-- findCodePage (encoder.go 244-253): linear scan over pages then codes,
first name match wins. -/
def findCodePage (space : CodeSpace) (tag : List Nat) : Except EncErr (Nat × Nat) :=
  match space with
  | [] => .error (.unknownTag tag)
  | (page, p) :: rest =>
    match p.find? (fun cn => cn.2 = tag) with
    | some cn => .ok (cn.1, page)
    | none => findCodePage rest tag

/-- Encoder.switchTagPage (encoder.go 336-346): emit SWITCH_PAGE and the
page id unless the tag page already matches. -/
def switchTagPage (st : ESt) (p : Nat) : List Nat × ESt :=
  if p = st.tagPage then ([], st)
  else ([gloSwitchPage, p], { st with tagPage := p })

/-- Encoder.switchAttrPage (encoder.go 348-358): same for the attribute
page. No caller in the source ever invokes it. -/
def switchAttrPage (st : ESt) (p : Nat) : List Nat × ESt :=
  if p = st.attrPage then ([], st)
  else ([gloSwitchPage, p], { st with attrPage := p })

/-- Encoder.GetIndex (encoder.go 41-52): scan the NUL-separated slots of
the string table for an exact match, returning the slot's byte offset. -/
def getIndexAux (str full : List Nat) : List Nat → Nat → Nat → Option Nat
  | [], _, _ => none
  | b :: rest, pos, start =>
    if b = 0 then
      if (full.drop start).take (pos - start) = str then some start
      else getIndexAux str full rest (pos + 1) (pos + 1)
    else getIndexAux str full rest (pos + 1) start

def getIndex (tbl str : List Nat) : Option Nat :=
  getIndexAux str tbl tbl 0 0

/-- Encoder.writeString (encoder.go 360-381): STR_T + MBU32 offset when the
string table holds the value, else STR_I + bytes + NUL for a non-empty
value, else nothing. -/
def encWriteString (st : ESt) (cdata : List Nat) : List Nat × Except EncErr Unit :=
  match getIndex st.header.StringTable cdata with
  | some idx =>
    match writeMbUint32 idx with
    | .ok bs => (gloStrT :: bs, .ok ())
    | .error e => ([gloStrT], .error e)
  | none =>
    if cdata = [] then ([], .ok ())
    else (gloStrI :: cdata ++ [0], .ok ())

/-- Encoder.encodeAttrs inner loop (encoder.go 286-315): resolve the
attribute name in the attribute space but switch pages with
switchTagPage; try the value as an attribute-value code (again switching
the tag page), falling back to the string emitter whose error the Go code
discards; END after the last attribute. -/
def encodeAttrsLoop (attrSpace : CodeSpace) (st : ESt) : List Attr → List Nat × Except EncErr ESt
  | [] => ([gloEnd], .ok st)
  | a :: rest =>
    match findCodePage attrSpace a.name with
    | .error e => ([], .error e)
    | .ok (code, page) =>
      let (sw1, st1) := switchTagPage st page
      match findCodePage attrSpace a.value with
      | .ok (vcode, vpage) =>
        let (sw2, st2) := switchTagPage st1 vpage
        match encodeAttrsLoop attrSpace st2 rest with
        | (bs, res) => (sw1 ++ [code] ++ sw2 ++ [vcode] ++ bs, res)
      | .error _ =>
        let (sbs, _) := encWriteString st1 a.value
        match encodeAttrsLoop attrSpace st1 rest with
        | (bs, res) => (sw1 ++ [code] ++ sbs ++ bs, res)

/-- Encoder.encodeAttrs (encoder.go 282-317): nothing at all for an empty
attribute list. -/
def encodeAttrs (attrSpace : CodeSpace) (st : ESt) (attrs : List Attr) :
    List Nat × Except EncErr ESt :=
  if attrs = [] then ([], .ok st) else encodeAttrsLoop attrSpace st attrs

/-- Encoder.encodeTag (encoder.go 255-280): resolve (code, page), switch
the tag page, OR in the attribute / content bits, push the name on the
suppress-end stack when there is no content, write the tag byte, then the
attributes. -/
def encodeTag (tagSpace attrSpace : CodeSpace) (st : ESt)
    (name : List Nat) (attrs : List Attr) (content : Bool) :
    List Nat × Except EncErr ESt :=
  match findCodePage tagSpace name with
  | .error e => ([], .error e)
  | .ok (code, page) =>
    let (sw, st1) := switchTagPage st page
    let f1 := if attrs ≠ [] then code ||| tagAttrMask else code
    let f2 := if content then f1 ||| tagContentMask else f1
    let st2 := if content then st1 else { st1 with ignoreEnd := st1.ignoreEnd ++ [name] }
    match encodeAttrs attrSpace st2 attrs with
    | (abs, res) => (sw ++ [f2] ++ abs, res)

/-- Encoder.encodeEnd (encoder.go 319-334): pop and emit nothing when the
suppress-end stack's top matches; otherwise END then a tag-page switch to
the element's page. -/
def encodeEnd (tagSpace : CodeSpace) (st : ESt) (name : List Nat) :
    List Nat × Except EncErr ESt :=
  if st.ignoreEnd ≠ [] ∧ st.ignoreEnd.getLast? = some name then
    ([], .ok { st with ignoreEnd := st.ignoreEnd.dropLast })
  else
    match findCodePage tagSpace name with
    | .error e => ([], .error e)
    | .ok (_, page) =>
      let (sw, st1) := switchTagPage st page
      (gloEnd :: sw, .ok st1)

/-- Encoder.writeEntity (encoder.go 383-389): ENTITY byte then the value
as MBU32 (writeMbUint with width 4). -/
def writeEntityE (st : ESt) (v : Nat) : List Nat × Except EncErr ESt :=
  match writeMbUint32 v with
  | .ok bs => (gloEntity :: bs, .ok st)
  | .error e => ([gloEntity], .error e)

/-- writeOpaque (part_000 143-153): OPAQUE byte, MBU32 length, bytes. -/
def writeOpaqueE (st : ESt) (data : List Nat) : List Nat × Except EncErr ESt :=
  match writeMbUint32 data.length with
  | .ok bs => (gloOpq :: bs ++ data, .ok st)
  | .error e => ([gloOpq], .error e)

/-- Encoder.EncodeHeader (encoder.go 54-84): version byte, public id
(written twice when zero), charset, string-table length, table bytes. -/
def encodeHeaderE (st : ESt) (h : Header) : List Nat × Except EncErr ESt :=
  let st1 := { st with header := h }
  match writeMbUint32 h.PublicID with
  | .error e => ([h.Version], .error e)
  | .ok pidBs =>
    let pidBs2 :=
      if h.PublicID = 0 then
        match writeMbUint32 h.PublicID with
        | .error _ => none
        | .ok bs => some (pidBs ++ bs)
      else some pidBs
    match pidBs2 with
    | none => ([h.Version] ++ pidBs, .error (.tooBig 0 4))
    | some pidAll =>
      match writeMbUint32 h.Charset with
      | .error e => ([h.Version] ++ pidAll, .error e)
      | .ok csBs =>
        match writeMbUint32 h.StringTable.length with
        | .error e => ([h.Version] ++ pidAll ++ csBs, .error e)
        | .ok lenBs =>
          ([h.Version] ++ pidAll ++ csBs ++ lenBs ++ h.StringTable, .ok st1)

/-- Encoder.EncodeToken (encoder.go 213-230). -/
def encodeToken (tagSpace attrSpace : CodeSpace) (st : ESt) :
    Token → List Nat × Except EncErr ESt
  | .start name attrs content => encodeTag tagSpace attrSpace st name attrs content
  | .endElt name => encodeEnd tagSpace st name
  | .procInst _ _ => ([], .error .notImplemented)
  | .charData d =>
    match encWriteString st d with
    | (bs, .ok _) => (bs, .ok st)
    | (bs, .error e) => (bs, .error e)
  | .opq d => writeOpaqueE st d
  | .entity v => writeEntityE st v

/-! ## Schema binder, unsigned-integer field (decoder.go DecodeElement,
reflect.Uint* case, lines 432-456) -/

inductive BindErr where
  | noToken
  | parseFail
  | setUintPanic
  | expectedNumber
  | expectedEnd
deriving DecidableEq, Repr

/-- strconv.ParseUint(s, 10, bits): decimal digits only, non-empty, value
below 2^bits (Go reports the out-of-range case as an error too). -/
def parseUintDec (s : List Nat) (bits : Nat) : Except BindErr Nat :=
  if s = [] then .error .parseFail
  else if s.all (fun ch => 48 ≤ ch ∧ ch ≤ 57) then
    let v := s.foldl (fun a ch => a * 10 + (ch - 48)) 0
    if v < 2 ^ bits then .ok v else .error .parseFail
  else .error .parseFail

/-- The Uint case of Decoder.DecodeElement for a field of declared width
bits: an Entity token is stored directly through reflect SetUint (which
panics on overflow); a CharData token is parsed with
strconv.ParseUint(string(tok), 10, 8) - the bit size is hard-coded to 8
whatever the field's declared width; then the matching EndElement is
required. The token source is the remaining token list. -/
def decodeElementUint (bits : Nat) (startName : List Nat) :
    List Token → Except BindErr Nat
  | [] => .error .noToken
  | t :: rest =>
    match t with
    | .entity v =>
      if v % 2 ^ 64 < 2 ^ bits then
        match rest with
        | [] => .error .noToken
        | t2 :: _ =>
          match t2 with
          | .endElt nm => if nm = startName then .ok (v % 2 ^ 64) else .error .expectedEnd
          | _ => .error .expectedEnd
      else .error .setUintPanic
    | .charData s =>
      match parseUintDec s 8 with
      | .error e => .error e
      | .ok v =>
        match rest with
        | [] => .error .noToken
        | t2 :: _ =>
          match t2 with
          | .endElt nm => if nm = startName then .ok v else .error .expectedEnd
          | _ => .error .expectedEnd
    | _ => .error .expectedNumber


/-- No CharData token in the list is empty. -/
def noEmptyCD (l : List Token) : Prop :=
  ∀ d, Token.charData d ∈ l → d ≠ []

theorem mbuContBytes_zero : mbuContBytes 0 = [] := by
  rw [mbuContBytes]; rfl

theorem mbuContBytes_pos (v : Nat) (h : v ≠ 0) :
    mbuContBytes v = mbuContBytes (v / 128) ++ [128 + v % 128] := by
  rw [mbuContBytes]; simp [h]

theorem cg_zero : cg 0 = 0 := by rw [cg]; rfl

theorem cg_pos (v : Nat) (h : v ≠ 0) : cg v = cg (v / 128) + 1 := by
  rw [cg]; simp [h]

theorem cg_le_iff (v : Nat) : ∀ t, cg v ≤ t ↔ v < 128 ^ t := by
  induction v using Nat.strong_induction_on with
  | _ v ih =>
    intro t
    by_cases hv : v = 0
    · subst hv
      simp [cg_zero, Nat.pos_pow_of_pos]
    · rw [cg_pos v hv]
      cases t with
      | zero =>
        simp only [pow_zero]
        omega
      | succ t' =>
        have hlt : v / 128 < v := Nat.div_lt_self (Nat.pos_of_ne_zero hv) (by norm_num)
        rw [Nat.succ_le_succ_iff, ih (v / 128) hlt t', pow_succ]
        exact Nat.div_lt_iff_lt_mul (by norm_num)

theorem mbuContBytes_length (v : Nat) : (mbuContBytes v).length = cg v := by
  induction v using Nat.strong_induction_on with
  | _ v ih =>
    by_cases hv : v = 0
    · subst hv; rw [mbuContBytes_zero, cg_zero]; rfl
    · rw [mbuContBytes_pos v hv, cg_pos v hv, List.length_append,
        ih (v / 128) (Nat.div_lt_self (Nat.pos_of_ne_zero hv) (by norm_num))]
      rfl

theorem mbuContBytes_mem (v : Nat) : ∀ b ∈ mbuContBytes v, 128 ≤ b ∧ b < 256 := by
  induction v using Nat.strong_induction_on with
  | _ v ih =>
    intro b hb
    by_cases hv : v = 0
    · subst hv; rw [mbuContBytes_zero] at hb; simp at hb
    · rw [mbuContBytes_pos v hv] at hb
      rcases List.mem_append.mp hb with h1 | h2
      · exact ih (v / 128) (Nat.div_lt_self (Nat.pos_of_ne_zero hv) (by norm_num)) b h1
      · have : b = 128 + v % 128 := by simpa using h2
        subst this
        have := Nat.mod_lt v (y := 128) (by norm_num)
        omega

theorem writeMbUintLoop_canon (v : Nat) :
    ∀ fuel i max (acc : List Nat), cg v ≤ fuel → cg v + i ≤ max + 1 → cg v + i ≤ 9 →
      writeMbUintLoop max fuel i v acc = .ok (mbuContBytes v ++ acc) := by
  induction v using Nat.strong_induction_on with
  | _ v ih =>
    intro fuel i max acc hfuel hmax h9
    by_cases hv : v = 0
    · subst hv
      rw [mbuContBytes_zero]
      cases fuel with
      | zero => simp [writeMbUintLoop]
      | succ f => simp [writeMbUintLoop]
    · have hcg := cg_pos v hv
      have hfuel1 : 1 ≤ fuel := by omega
      obtain ⟨f, rfl⟩ : ∃ f, fuel = f + 1 := ⟨fuel - 1, by omega⟩
      rw [writeMbUintLoop]
      have hi : i ≤ max := by omega
      have hpos : 0 < v := Nat.pos_of_ne_zero hv
      rw [if_pos ⟨hi, hpos⟩, if_neg (by omega : ¬ 8 < i)]
      have hlt : v / 128 < v := Nat.div_lt_self hpos (by norm_num)
      rw [ih (v / 128) hlt f (i + 1) max ((128 + v % 128) :: acc) (by omega) (by omega) (by omega)]
      rw [mbuContBytes_pos v hv]
      simp

theorem writeMbUint_canon (N v : Nat) (h1 : 1 ≤ N) (h8 : N ≤ 8) (hv : v < 128 ^ N) :
    writeMbUint v N = .ok (mbuCanon v) := by
  have hdiv : v / 128 < 128 ^ (N - 1) := by
    rw [Nat.div_lt_iff_lt_mul (by norm_num : (0:Nat) < 128)]
    calc v < 128 ^ N := hv
      _ = 128 ^ (N - 1) * 128 := by
        rw [← pow_succ]
        congr 1
        omega
  have hcg : cg (v / 128) ≤ N - 1 := (cg_le_iff (v / 128) (N - 1)).mpr hdiv
  unfold writeMbUint mbuCanon
  rw [writeMbUintLoop_canon (v / 128) N 2 N [v % 128] (by omega) (by omega) (by omega)]

theorem land128_eq_zero : ∀ b < 128, b &&& 128 = 0 := by decide

set_option maxRecDepth 4096 in
theorem land128_ne_zero : ∀ b < 256, 128 ≤ b → ¬ b &&& 128 = 0 := by decide

theorem foldl_step_mono (bs : List Nat) :
    ∀ a : Nat, a ≤ bs.foldl (fun x b => x * 128 + b % 128) a := by
  induction bs with
  | nil => intro a; simp
  | cons b bs ih =>
    intro a
    simp only [List.foldl_cons]
    have h1 : a ≤ a * 128 := Nat.le_mul_of_pos_right a (by norm_num)
    calc a ≤ a * 128 + b % 128 := by omega
      _ ≤ bs.foldl (fun x b => x * 128 + b % 128) (a * 128 + b % 128) := ih _

theorem mbUintGo_canon (bs : List Nat) :
    ∀ (acc n max last : Nat) (rest : List Nat),
      (∀ b ∈ bs, 128 ≤ b ∧ b < 256) → last < 128 → bs.length < n →
      (bs.foldl (fun x b => x * 128 + b % 128) acc) * 128 + last < 2 ^ 64 →
      mbUintGo max acc n (bs ++ last :: rest) =
        .ok ((bs.foldl (fun x b => x * 128 + b % 128) acc) * 128 + last, rest) := by
  induction bs with
  | nil =>
    intro acc n max last rest _ hl hn hbound
    simp only [List.foldl_nil] at hbound ⊢
    obtain ⟨m, rfl⟩ : ∃ m, n = m + 1 := ⟨n - 1, by omega⟩
    simp only [List.nil_append, mbUintGo]
    have h1 : acc * 128 % 2 ^ 64 = acc * 128 := Nat.mod_eq_of_lt (by omega)
    have h2 : last % 128 = last := Nat.mod_eq_of_lt hl
    rw [h1, h2, if_pos (land128_eq_zero last hl)]
  | cons b bs ih =>
    intro acc n max last rest h128 hl hn hbound
    obtain ⟨m, rfl⟩ : ∃ m, n = m + 1 := ⟨n - 1, by omega⟩
    simp only [List.cons_append, mbUintGo, List.foldl_cons] at hbound ⊢
    have hb := h128 b (List.mem_cons_self b bs)
    have hmono := foldl_step_mono bs (acc * 128 + b % 128)
    have hacc : acc * 128 % 2 ^ 64 = acc * 128 := by
      apply Nat.mod_eq_of_lt
      have : acc * 128 ≤ acc * 128 + b % 128 := by omega
      omega
    rw [hacc, if_neg (land128_ne_zero b hb.2 hb.1)]
    exact ih (acc * 128 + b % 128) m max last rest
      (fun x hx => h128 x (List.mem_cons_of_mem b hx)) hl (by simpa using hn) hbound

theorem foldl_step_contBytes (v : Nat) :
    ∀ a : Nat, (mbuContBytes v).foldl (fun x b => x * 128 + b % 128) a = a * 128 ^ cg v + v := by
  induction v using Nat.strong_induction_on with
  | _ v ih =>
    intro a
    by_cases hv : v = 0
    · subst hv; rw [mbuContBytes_zero, cg_zero]; simp
    · rw [mbuContBytes_pos v hv, cg_pos v hv, List.foldl_append,
        ih (v / 128) (Nat.div_lt_self (Nat.pos_of_ne_zero hv) (by norm_num)) a]
      simp only [List.foldl_cons, List.foldl_nil]
      have h1 : (128 + v % 128) % 128 = v % 128 := by omega
      have h2 : v / 128 * 128 + v % 128 = v := by omega
      rw [h1, pow_succ]
      calc (a * 128 ^ cg (v / 128) + v / 128) * 128 + v % 128
          = a * (128 ^ cg (v / 128) * 128) + (v / 128 * 128 + v % 128) := by ring
        _ = a * (128 ^ cg (v / 128) * 128) + v := by rw [h2]

theorem mbUint_canon (N v : Nat) (h1 : 1 ≤ N) (h8 : N ≤ 8) (hv : v < 128 ^ N)
    (rest : List Nat) : mbUint N (mbuCanon v ++ rest) = .ok (v, rest) := by
  have hdiv : v / 128 < 128 ^ (N - 1) := by
    rw [Nat.div_lt_iff_lt_mul (by norm_num : (0:Nat) < 128)]
    calc v < 128 ^ N := hv
      _ = 128 ^ (N - 1) * 128 := by rw [← pow_succ]; congr 1; omega
  have hcg : cg (v / 128) ≤ N - 1 := (cg_le_iff (v / 128) (N - 1)).mpr hdiv
  have hlen : (mbuContBytes (v / 128)).length < N := by
    rw [mbuContBytes_length]; omega
  have hfold := foldl_step_contBytes (v / 128) 0
  have hvbound : v < 2 ^ 64 := by
    calc v < 128 ^ N := hv
      _ ≤ 128 ^ 8 := Nat.pow_le_pow_right (by norm_num) h8
      _ < 2 ^ 64 := by norm_num
  unfold mbuCanon mbUint
  rw [List.append_assoc, List.singleton_append]
  have hmain := mbUintGo_canon (mbuContBytes (v / 128)) 0 N N (v % 128) rest
    (mbuContBytes_mem (v / 128)) (Nat.mod_lt v (by norm_num)) hlen
    (by rw [hfold]; simp; omega)
  rw [hmain, hfold]
  simp only [zero_mul, zero_add]
  congr 2
  omega

theorem cg_eq_clog (w : Nat) : cg w = Nat.clog 128 (w + 1) := by
  apply Nat.le_antisymm
  · rw [cg_le_iff]
    have h := (Nat.le_pow_iff_clog_le (b := 128) (by norm_num)).mpr
      (le_refl (Nat.clog 128 (w + 1)))
    omega
  · rw [← Nat.le_pow_iff_clog_le (by norm_num)]
    have h := (cg_le_iff w (cg w)).mp (le_refl (cg w))
    omega

theorem mbuCanon_length (v : Nat) :
    (mbuCanon v).length = max 1 (Nat.clog 128 (v + 1)) := by
  unfold mbuCanon
  rw [List.length_append, mbuContBytes_length]
  by_cases hv : v = 0
  · subst hv
    rw [Nat.zero_div, cg_zero]
    simp [Nat.clog_one_right]
  · have hc1 : 1 ≤ Nat.clog 128 (v + 1) := by
      have := Nat.clog_pos (b := 128) (n := v + 1) (by norm_num) (by omega)
      omega
    have heq : cg (v / 128) + 1 = Nat.clog 128 (v + 1) := by
      rw [cg_eq_clog]
      apply Nat.le_antisymm
      · have hstep : v / 128 < 128 ^ (Nat.clog 128 (v + 1) - 1) := by
          rw [Nat.div_lt_iff_lt_mul (by norm_num : (0:Nat) < 128), ← pow_succ]
          have h2 : v + 1 ≤ 128 ^ Nat.clog 128 (v + 1) :=
            (Nat.le_pow_iff_clog_le (by norm_num)).mpr (le_refl _)
          have h3 : Nat.clog 128 (v + 1) - 1 + 1 = Nat.clog 128 (v + 1) := by omega
          rw [h3]
          omega
        have := (Nat.le_pow_iff_clog_le (b := 128) (by norm_num)
          (x := v / 128 + 1) (y := Nat.clog 128 (v + 1) - 1)).mp (by omega)
        omega
      · have hlt : v / 128 < 128 ^ Nat.clog 128 (v / 128 + 1) := by
          have := (Nat.le_pow_iff_clog_le (b := 128) (by norm_num)
            (x := v / 128 + 1) (y := Nat.clog 128 (v / 128 + 1))).mpr (le_refl _)
          omega
        have hv2 : v + 1 ≤ 128 ^ (Nat.clog 128 (v / 128 + 1) + 1) := by
          rw [pow_succ]
          have : v < 128 ^ Nat.clog 128 (v / 128 + 1) * 128 := by
            rw [← Nat.div_lt_iff_lt_mul (by norm_num : (0:Nat) < 128)]
            exact hlt
          omega
        exact (Nat.le_pow_iff_clog_le (by norm_num)).mp hv2
    simp only [List.length_singleton]
    omega

theorem mbuCanon_dropLast (v : Nat) : (mbuCanon v).dropLast = mbuContBytes (v / 128) := by
  unfold mbuCanon
  exact List.dropLast_concat

theorem mbuCanon_getLast (v : Nat) : (mbuCanon v).getLast? = some (v % 128) := by
  unfold mbuCanon
  simp

theorem mbuCanon_zero : mbuCanon 0 = [0] := by
  unfold mbuCanon
  rw [Nat.zero_div, mbuContBytes_zero]
  rfl

/-- C3 counterexample: with width N = 9 the claim fails; the value 2^56
needs nine 7-bit groups, and the ninth loop iteration of writeMbUint
indexes buf[-1], a Go runtime panic, instead of succeeding. -/
theorem writeMbUint_width9_panics :
    writeMbUint (2 ^ 56) 9 = .error .indexPanic ∧ 2 ^ 56 ≤ 2 ^ (7 * 9) - 1 := by
  constructor
  · rfl
  · norm_num

/-- C3 amended: for widths 1..8 the MBU encoder is correct: it succeeds,
produces the canonical minimal big-endian base-128 encoding with the
continuation bit set exactly on the non-final bytes, with length
max(1, ceil(log128(v+1))) (a zero value gives the single byte 0x00), and
the decoder of the same width recovers the value. -/
theorem c3_amended (N v : Nat) (rest : List Nat)
    (h1 : 1 ≤ N) (h8 : N ≤ 8) (hv : v < 128 ^ N) :
    writeMbUint v N = .ok (mbuCanon v)
    ∧ (mbuCanon v).length = max 1 (Nat.clog 128 (v + 1))
    ∧ (v = 0 → mbuCanon v = [0])
    ∧ (∀ b ∈ (mbuCanon v).dropLast, 128 ≤ b ∧ b < 256)
    ∧ (mbuCanon v).getLast? = some (v % 128)
    ∧ v % 128 < 128
    ∧ mbUint N (mbuCanon v ++ rest) = .ok (v, rest) := by
  refine ⟨writeMbUint_canon N v h1 h8 hv, mbuCanon_length v, ?_, ?_, mbuCanon_getLast v,
    Nat.mod_lt v (by norm_num), mbUint_canon N v h1 h8 hv rest⟩
  · intro hz; subst hz; exact mbuCanon_zero
  · intro b hb
    rw [mbuCanon_dropLast] at hb
    exact mbuContBytes_mem (v / 128) b hb

theorem c3_amended_witness :
    (1 ≤ 2 ∧ 2 ≤ 8 ∧ 500 < 128 ^ 2)
    ∧ (writeMbUint 500 2 = .ok (mbuCanon 500)
      ∧ (mbuCanon 500).length = max 1 (Nat.clog 128 (500 + 1))
      ∧ (500 = 0 → mbuCanon 500 = [0])
      ∧ (∀ b ∈ (mbuCanon 500).dropLast, 128 ≤ b ∧ b < 256)
      ∧ (mbuCanon 500).getLast? = some (500 % 128)
      ∧ 500 % 128 < 128
      ∧ mbUint 2 (mbuCanon 500 ++ []) = .ok (500, [])) :=
  ⟨⟨by decide, by decide, by decide⟩, c3_amended 2 500 [] (by decide) (by decide) (by decide)⟩

theorem writeMbUint_overflow4 (v : Nat) (h : 2 ^ 28 ≤ v) :
    writeMbUint v 4 = .error (.tooBig (v / 2 ^ 28) 4) := by
  have h0 : (0:Nat) < 128 := by norm_num
  have hp1 : 0 < v / 128 := Nat.div_pos (by omega) h0
  have hp2 : 0 < v / 128 / 128 := Nat.div_pos (Nat.le_div_iff_mul_le h0 |>.mpr (by omega)) h0
  have hp3 : 0 < v / 128 / 128 / 128 := by
    apply Nat.div_pos _ h0
    apply (Nat.le_div_iff_mul_le h0).mpr
    apply (Nat.le_div_iff_mul_le h0).mpr
    omega
  have hp4 : v / 128 / 128 / 128 / 128 ≠ 0 := by
    simp only [Nat.div_div_eq_div_mul]
    have : (2:Nat) ^ 28 / (128 * 128 * 128 * 128) ≤ v / (128 * 128 * 128 * 128) :=
      Nat.div_le_div_right h
    norm_num at this
    omega
  unfold writeMbUint
  rw [writeMbUintLoop]
  rw [if_pos ⟨by norm_num, hp1⟩, if_neg (by norm_num : ¬ (8:Nat) < 2)]
  rw [writeMbUintLoop]
  rw [if_pos ⟨by norm_num, hp2⟩, if_neg (by norm_num : ¬ (8:Nat) < 3)]
  rw [writeMbUintLoop]
  rw [if_pos ⟨by norm_num, hp3⟩, if_neg (by norm_num : ¬ (8:Nat) < 4)]
  rw [writeMbUintLoop]
  rw [if_neg (by omega : ¬ ((5:Nat) ≤ 4 ∧ 0 < v / 128 / 128 / 128 / 128)), if_pos hp4]
  congr 1
  simp only [Nat.div_div_eq_div_mul]
  norm_num

/-- C10: EncodeToken on an Entity writes the ENTITY byte then the MBU32
encoding of the code; values below 2^28 succeed with the canonical
base-128 bytes, values from 2^28 up to 2^32-1 fail because the writer is
capped at four 7-bit groups, having already emitted the ENTITY byte. -/
theorem c10_entity (tagSpace attrSpace : CodeSpace) (st : ESt) (v : Nat)
    (hv : v < 2 ^ 32) :
    (v < 2 ^ 28 →
      encodeToken tagSpace attrSpace st (.entity v) = (gloEntity :: mbuCanon v, .ok st))
    ∧ (2 ^ 28 ≤ v →
      encodeToken tagSpace attrSpace st (.entity v) =
        ([gloEntity], .error (.tooBig (v / 2 ^ 28) 4))) := by
  have hmod : v % 2 ^ 32 = v := Nat.mod_eq_of_lt hv
  constructor
  · intro hlt
    show writeEntityE st v = _
    unfold writeEntityE writeMbUint32
    rw [hmod, writeMbUint_canon 4 v (by norm_num) (by norm_num) (by norm_num at hlt ⊢; omega)]
  · intro hge
    show writeEntityE st v = _
    unfold writeEntityE writeMbUint32
    rw [hmod, writeMbUint_overflow4 v hge]

theorem c10_entity_witness :
    ((5:Nat) < 2 ^ 32 ∧ (2:Nat) ^ 28 < 2 ^ 32)
    ∧ encodeToken [] [] est0 (.entity 5) = (gloEntity :: mbuCanon 5, .ok est0)
    ∧ encodeToken [] [] est0 (.entity (2 ^ 28)) =
        ([gloEntity], .error (.tooBig (2 ^ 28 / 2 ^ 28) 4)) :=
  ⟨⟨by norm_num, by norm_num⟩,
   (c10_entity [] [] est0 5 (by norm_num)).1 (by norm_num),
   (c10_entity [] [] est0 (2 ^ 28) (by norm_num)).2 (by norm_num)⟩

theorem land_tagAttrMask_zero : ∀ c < 64, c &&& tagAttrMask = 0 := by decide

theorem land_tagContentMask_zero : ∀ c < 64, c &&& tagContentMask = 0 := by decide

/-- C4: encoding a content-less attribute-less StartElement writes only
the (possibly page-switch-prefixed) bare tag byte with both flag bits
clear and pushes the name on the suppress-end stack; the matching
EndElement pops it and writes nothing. -/
theorem c4_end_elision (tagSpace attrSpace : CodeSpace) (st : ESt) (X : List Nat)
    (code page : Nat) (hfind : findCodePage tagSpace X = .ok (code, page))
    (hcode : code < 64) :
    encodeToken tagSpace attrSpace st (.start X [] false) =
      ((if page = st.tagPage then [] else [gloSwitchPage, page]) ++ [code],
       .ok { st with tagPage := page, ignoreEnd := st.ignoreEnd ++ [X] })
    ∧ code &&& tagAttrMask = 0 ∧ code &&& tagContentMask = 0
    ∧ encodeToken tagSpace attrSpace
        { st with tagPage := page, ignoreEnd := st.ignoreEnd ++ [X] } (.endElt X) =
      ([], .ok { st with tagPage := page }) := by
  refine ⟨?_, land_tagAttrMask_zero code hcode, land_tagContentMask_zero code hcode, ?_⟩
  · show encodeTag tagSpace attrSpace st X [] false = _
    unfold encodeTag
    rw [hfind]
    unfold switchTagPage encodeAttrs
    by_cases hp : page = st.tagPage
    · subst hp
      simp
    · simp [hp]
  · show encodeEnd tagSpace { st with tagPage := page, ignoreEnd := st.ignoreEnd ++ [X] } X = _
    unfold encodeEnd
    rw [if_pos ⟨by simp, by rw [List.getLast?_concat]⟩]
    simp only [List.dropLast_concat]

theorem c4_end_elision_witness :
    (findCodePage [(1, [(5, [88])])] [88] = .ok (5, 1) ∧ (5:Nat) < 64)
    ∧ (encodeToken [(1, [(5, [88])])] [] est0 (.start [88] [] false) =
        ((if 1 = est0.tagPage then [] else [gloSwitchPage, 1]) ++ [5],
         .ok { est0 with tagPage := 1, ignoreEnd := est0.ignoreEnd ++ [[88]] })
      ∧ (5:Nat) &&& tagAttrMask = 0 ∧ (5:Nat) &&& tagContentMask = 0
      ∧ encodeToken [(1, [(5, [88])])] []
          { est0 with tagPage := 1, ignoreEnd := est0.ignoreEnd ++ [[88]] } (.endElt [88]) =
          ([], .ok { est0 with tagPage := 1 })) :=
  ⟨⟨by decide, by decide⟩, c4_end_elision [(1, [(5, [88])])] [] est0 [88] 5 1 (by decide) (by decide)⟩

/-- C5: the attribute encoder calls switchTagPage, not switchAttrPage: on
an attribute resolving to page 1 with both current pages 0 it emits
SWITCH_PAGE 1 but records the change in the tag page, leaving the
attribute page at 0; and when the tag page is already 1 it emits no
switch at all even though the attribute page is 0. switchAttrPage has no
caller. -/
theorem c5_attr_page_bug :
    (encodeAttrs [(0, [(5, [65])]), (1, [(6, [66])])] est0 [{ name := [66], value := [] }]
        = ([gloSwitchPage, 1, 6, gloEnd], .ok { est0 with tagPage := 1 })
      ∧ est0.attrPage = 0)
    ∧ encodeAttrs [(0, [(5, [65])]), (1, [(6, [66])])] { est0 with tagPage := 1 }
        [{ name := [66], value := [] }]
        = ([6, gloEnd], .ok { est0 with tagPage := 1 }) := by decide

/-- C6 counterexample: when the string table contains an empty slot (here
a lone NUL byte), an empty CharData is not dropped: the encoder emits
STR_T with offset 0. -/
theorem c6_counter :
    encodeToken [] []
        { est0 with header := { Version := 1, PublicID := 1, Charset := 3, StringTable := [0] } }
        (.charData [])
      = ([gloStrT, 0],
         .ok { est0 with header := { Version := 1, PublicID := 1, Charset := 3, StringTable := [0] } })
    ∧ ([gloStrT, 0] : List Nat) ≠ [] := by decide

/-- C6 amended: an empty CharData writes nothing provided the empty string
does not occur as a string-table slot; and in every state an empty
CharData never produces STR_I bytes - the output is empty or starts with
STR_T. -/
theorem c6_amended (tagSpace attrSpace : CodeSpace) (st st2 : ESt)
    (h : getIndex st.header.StringTable [] = none) :
    encodeToken tagSpace attrSpace st (.charData []) = ([], .ok st)
    ∧ ((encodeToken tagSpace attrSpace st2 (.charData [])).1 = []
       ∨ ∃ bs, (encodeToken tagSpace attrSpace st2 (.charData [])).1 = gloStrT :: bs) := by
  constructor
  · show (match encWriteString st [] with
      | (bs, .ok _) => (bs, Except.ok st)
      | (bs, .error e) => (bs, Except.error e)) = ([], Except.ok st)
    unfold encWriteString
    rw [h]
    rfl
  · have key : (encodeToken tagSpace attrSpace st2 (Token.charData [])).1
        = (encWriteString st2 []).1 := by
      show (match encWriteString st2 [] with
        | (bs, .ok _) => (bs, Except.ok st2)
        | (bs, .error e) => (bs, Except.error e)).1 = _
      rcases encWriteString st2 [] with ⟨bs, res⟩
      cases res <;> rfl
    rw [key]
    unfold encWriteString
    cases hgi : getIndex st2.header.StringTable [] with
    | none => left; rfl
    | some idx =>
      right
      cases hw : writeMbUint32 idx with
      | ok bs => simp only [hw]; exact ⟨bs, rfl⟩
      | error e => simp only [hw]; exact ⟨[], rfl⟩

theorem c6_amended_witness :
    getIndex est0.header.StringTable [] = none
    ∧ encodeToken [] [] est0 (.charData []) = ([], .ok est0) :=
  ⟨by decide, (c6_amended [] [] est0 est0 (by decide)).1⟩

/-- C7: DecodeElement parses decimal CharData with strconv.ParseUint at a
hard-coded bit size of 8: for a 32-bit field the decimal 300 (bytes
"300"), though representable in the declared type, is rejected, while a
value up to 255 is stored and the matching EndElement is required; an
Entity is stored directly. -/
theorem c7_parse_width_bug :
    decodeElementUint 32 [88] [Token.charData [51, 48, 48], Token.endElt [88]]
      = .error .parseFail
    ∧ (300 : Nat) < 2 ^ 32
    ∧ decodeElementUint 32 [88] [Token.charData [57, 57], Token.endElt [88]] = .ok 99
    ∧ decodeElementUint 32 [88] [Token.entity 300, Token.endElt [88]] = .ok 300 := by
  refine ⟨by decide, by norm_num, by decide, by decide⟩

/-- C9 counterexample: a zero-public-id header whose charset is 2^28 does
not round-trip - writeMbUint32 is capped at four 7-bit groups, so
EncodeHeader fails after emitting only the version and the doubled zero. -/
theorem c9_counter :
    encodeHeaderE est0 { Version := 1, PublicID := 0, Charset := 2 ^ 28, StringTable := [] }
      = ([1, 0, 0], .error (.tooBig 1 4))
    ∧ readHeaderModel [1, 0, 0] = .error .eof := by decide

theorem mbUint32_canon (v : Nat) (hv : v < 2 ^ 28) (rest : List Nat) :
    mbUint32 (mbuCanon v ++ rest) = .ok (v, rest) := by
  unfold mbUint32
  rw [mbUint_canon 4 v (by norm_num) (by norm_num) (by norm_num; omega) rest]
  simp only [Except.ok.injEq]
  congr 1
  exact Nat.mod_eq_of_lt (by omega)

theorem writeMbUint32_canon (v : Nat) (hv : v < 2 ^ 28) :
    writeMbUint32 v = .ok (mbuCanon v) := by
  unfold writeMbUint32
  rw [Nat.mod_eq_of_lt (by omega : v < 2 ^ 32)]
  exact writeMbUint_canon 4 v (by norm_num) (by norm_num) (by norm_num; omega)

theorem mbuCanon_ne_nil (v : Nat) : mbuCanon v ≠ [] := by
  unfold mbuCanon
  simp

theorem mbUint32_zero_cons (z : List Nat) : mbUint32 (0 :: z) = .ok (0, z) := rfl

theorem readTable_exact (tbl rest : List Nat) :
    readTable tbl.length (tbl ++ rest) = .ok (tbl, rest) := by
  unfold readTable
  by_cases h0 : tbl.length = 0
  · rw [if_pos h0]
    have he : tbl = [] := List.length_eq_zero.mp h0
    subst he
    rfl
  · rw [if_neg h0, if_neg (by simp only [List.length_append]; omega),
      if_neg (by simp only [List.length_append, not_lt]; omega)]
    rw [List.take_left, List.drop_left]

/-- C9 amended: a header with zero public id whose charset and
string-table length are MBU32-encodable (below 2^28) has its public-id
field emitted twice, and decoding the emitted bytes returns exactly the
original header with the rest of the stream untouched. -/
theorem c9_roundtrip (st : ESt) (h : Header) (rest : List Nat)
    (hpid : h.PublicID = 0) (hver : h.Version < 256)
    (hcs : h.Charset < 2 ^ 28) (hlen : h.StringTable.length < 2 ^ 28) :
    encodeHeaderE st h =
      (h.Version :: 0 :: 0 ::
        (mbuCanon h.Charset ++ mbuCanon h.StringTable.length ++ h.StringTable),
       .ok { st with header := h })
    ∧ readHeaderModel ((encodeHeaderE st h).1 ++ rest) = .ok (h, rest) := by
  obtain ⟨ver, pid, cs, tbl⟩ := h
  simp only at hpid hcs hlen
  subst hpid
  have henc : encodeHeaderE st { Version := ver, PublicID := 0, Charset := cs, StringTable := tbl } =
      (ver :: 0 :: 0 :: (mbuCanon cs ++ mbuCanon tbl.length ++ tbl),
       .ok { st with header := { Version := ver, PublicID := 0, Charset := cs, StringTable := tbl } }) := by
    unfold encodeHeaderE
    have h0 : writeMbUint32 0 = .ok [0] := by decide
    rw [h0]
    simp only [if_pos rfl, h0]
    rw [writeMbUint32_canon cs hcs, writeMbUint32_canon tbl.length hlen]
    simp [mbuCanon_zero]
  refine ⟨henc, ?_⟩
  rw [henc]
  unfold readHeaderModel
  simp only [List.cons_append, List.append_assoc, readByte, mbUint32_zero_cons,
    mbUint32_canon cs hcs, mbUint32_canon tbl.length hlen, readTable_exact, if_pos]

theorem c9_roundtrip_witness :
    (({ Version := 3, PublicID := 0, Charset := 3, StringTable := [18, 1] } : Header).PublicID = 0)
    ∧ (encodeHeaderE est0 { Version := 3, PublicID := 0, Charset := 3, StringTable := [18, 1] } =
        ((3:Nat) :: 0 :: 0 ::
          (mbuCanon 3 ++ mbuCanon ([18, 1] : List Nat).length ++ [18, 1]),
         .ok { est0 with
               header := { Version := 3, PublicID := 0, Charset := 3, StringTable := [18, 1] } })
      ∧ readHeaderModel
          ((encodeHeaderE est0
              { Version := 3, PublicID := 0, Charset := 3, StringTable := [18, 1] }).1 ++ [])
        = .ok ({ Version := 3, PublicID := 0, Charset := 3, StringTable := [18, 1] }, [])) :=
  ⟨rfl, c9_roundtrip est0 { Version := 3, PublicID := 0, Charset := 3, StringTable := [18, 1] }
    [] rfl (by norm_num) (by norm_num) (by norm_num)⟩

/-- C1 counterexample: on the five-byte document whose single tag byte has
no code space entry, the decode goroutine panics with a non-EOF error
(UnknownPage); Decoder.run re-panics it instead of storing it, so Token
never returns this error and never reaches end-of-stream. -/
theorem c1_counter :
    runModel [] [] [1, 1, 3, 0, 5] = ([], .panicked (.unknownPage 0))
    ∧ DecErr.unknownPage 0 ≠ DecErr.eof := by decide

/-- C1 amended: after the produced tokens are consumed, a decode failure
that is io.EOF (unexpected end of input) is surfaced as the end-of-stream
result on every subsequent Token call; every other decoding failure makes
the goroutine re-panic without closing the channel, so those Token calls
never return - the error escapes by the panic path instead of being
returned. -/
theorem c1_amended (tags attrs : CodeSpace) (input : List Nat) (n : Nat)
    (h : (runModel tags attrs input).1.length ≤ n) :
    ((runModel tags attrs input).2 = .closedEOF →
      tokenCall (runModel tags attrs input) n = .eos (some .eof))
    ∧ (∀ e, (runModel tags attrs input).2 = .panicked e →
        e ≠ .eof ∧ tokenCall (runModel tags attrs input) n = .blocked) := by
  have hget : (runModel tags attrs input).1.get? n = none := List.get?_eq_none.mpr h
  constructor
  · intro hc
    unfold tokenCall
    rw [hget, hc]
  · intro e he
    constructor
    · have h2 : outcomeOf (decodeRaw tags attrs (2 * input.length + 8) input).2 = .panicked e := he
      cases hraw : (decodeRaw tags attrs (2 * input.length + 8) input).2 with
      | ok u =>
        rw [hraw] at h2
        exact Outcome.noConfusion h2
      | error e2 =>
        rw [hraw] at h2
        simp only [outcomeOf] at h2
        by_cases heof : e2 = DecErr.eof
        · rw [if_pos heof] at h2
          exact Outcome.noConfusion h2
        · rw [if_neg heof] at h2
          cases h2
          exact heof
    · unfold tokenCall
      rw [hget, he]

theorem c1_amended_witness :
    DecErr.unknownPage 0 ≠ DecErr.eof
    ∧ tokenCall (runModel [] [] [1, 1, 3, 0, 5]) 0 = .blocked :=
  (c1_amended [] [] [1, 1, 3, 0, 5] 0 (by decide)).2 (.unknownPage 0) (by decide)

/-- C2 counterexample: an ENTITY immediately followed by inline character
data inside element content is delivered as a standalone Entity token and
a separate CharData token - the entity is adjacent to character data yet
is not folded into it. -/
theorem c2_counter :
    runModel [(0, [(5, [65])])] [] [1, 1, 3, 0, 0x45, 2, 0x81, 0x20, 3, 97, 0, 1]
      = ([Token.start [65] [] false, Token.entity 160, Token.charData [97],
          Token.endElt [65]], .closedEOF) := by decide

/-- C2 amended: the decoder's charData handler folds an ENTITY into the
pending character-data buffer (as the UTF-8 encoding of the code point)
exactly when the buffer is already non-empty; with an empty buffer the
entity is emitted standalone regardless of what follows. -/
theorem c2_amended (tbl c input : List Nat) (code : Nat) (rest : List Nat)
    (hmb : mbUint32 input = .ok (code, rest)) :
    (c = [] → charDataGo tbl c gloEntity input = ([Token.entity code], .ok (c, rest)))
    ∧ (c ≠ [] → ∀ l, utf8RuneLen code = some l →
        charDataGo tbl c gloEntity input = ([], .ok (c ++ utf8Encode code, rest))) := by
  constructor
  · intro hc
    subst hc
    unfold charDataGo
    rw [if_neg (by decide), if_neg (by decide), if_pos rfl]
    simp only [hmb]
    rfl
  · intro hc l hrl
    unfold charDataGo
    rw [if_neg (by decide), if_neg (by decide), if_pos rfl]
    have hlen : 0 < c.length := List.length_pos.mpr hc
    simp only [hmb, hlen, if_true, hrl]

theorem c2_amended_witness :
    charDataGo [] [] gloEntity [129, 32] = ([Token.entity 160], .ok ([], []))
    ∧ charDataGo [] [97] gloEntity [129, 32] = ([], .ok ([97] ++ utf8Encode 160, [])) :=
  ⟨(c2_amended [] [] [129, 32] 160 [] (by decide)).1 rfl,
   (c2_amended [] [97] [129, 32] 160 [] (by decide)).2 (by decide) 2 (by decide)⟩

/-- C8 counterexample: a SWITCH_PAGE between two inline strings inside
element content flushes the pending buffer (the switch byte takes the
element path, which emits nothing), so the decoder emits two consecutive
CharData tokens. -/
theorem c8_counter :
    runModel [(0, [(5, [65])]), (1, [(5, [66])])] []
        [1, 1, 3, 0, 0x45, 3, 97, 0, 0, 1, 3, 98, 0, 1]
      = ([Token.start [65] [] false, Token.charData [97], Token.charData [98],
          Token.endElt [65]], .closedEOF) := by decide

theorem noEmptyCD_nil : noEmptyCD [] := by
  intro d hd
  simp at hd

theorem noEmptyCD_append {a b : List Token} (ha : noEmptyCD a) (hb : noEmptyCD b) :
    noEmptyCD (a ++ b) := by
  intro d hd
  rcases List.mem_append.mp hd with h | h
  · exact ha d h
  · exact hb d h

theorem noEmptyCD_flushCD (c : List Nat) : noEmptyCD (flushCD c) := by
  intro d hd
  unfold flushCD at hd
  by_cases hc : c = []
  · rw [if_pos hc] at hd
    simp at hd
  · rw [if_neg hc] at hd
    simp at hd
    rw [hd]
    exact hc

theorem noEmptyCD_start (nm : List Nat) (attrs : List Attr) (ct : Bool) :
    noEmptyCD [Token.start nm attrs ct] := by
  intro d hd
  simp at hd

theorem noEmptyCD_endElt (nm : List Nat) : noEmptyCD [Token.endElt nm] := by
  intro d hd
  simp at hd

theorem noEmptyCD_opq (data : List Nat) : noEmptyCD [Token.opq data] := by
  intro d hd
  simp at hd

theorem noEmptyCD_entity (code : Nat) : noEmptyCD [Token.entity code] := by
  intro d hd
  simp at hd

theorem noEmptyCD_charDataGo (tbl c : List Nat) (b : Nat) (input : List Nat) :
    noEmptyCD (charDataGo tbl c b input).1 := by
  unfold charDataGo
  split
  · split <;> exact noEmptyCD_nil
  · split
    · split
      · exact noEmptyCD_nil
      · split <;> exact noEmptyCD_nil
    · split
      · split
        · exact noEmptyCD_nil
        · split
          · split <;> exact noEmptyCD_nil
          · exact noEmptyCD_entity _
      · exact noEmptyCD_nil

theorem readAttrValueF_noEmptyCD (env : Env) (fuel : Nat)
    (ih : ∀ st c input, noEmptyCD (readAttrValueF env fuel st c input).1) :
    ∀ st c input, noEmptyCD (readAttrValueF env (fuel + 1) st c input).1 := by
  intro st c input
  rw [readAttrValueF]
  split
  · exact noEmptyCD_nil
  · rename_i b rest hrb
    split
    · -- STR_I / STR_T / ENTITY
      split
      · rename_i toks e heq
        have h1 := noEmptyCD_charDataGo env.tbl c b rest
        rw [heq] at h1
        exact h1
      · rename_i toks c1 rest1 heq
        have h1 := noEmptyCD_charDataGo env.tbl c b rest
        rw [heq] at h1
        exact noEmptyCD_append h1 (ih st c1 rest1)
    · split
      · exact noEmptyCD_nil
      · split
        · exact noEmptyCD_nil
        · split
          · exact noEmptyCD_nil
          · split
            · exact noEmptyCD_nil
            · rename_i nm heq
              exact ih st (c ++ nm) rest

theorem attrLoopF_noEmptyCD (env : Env) (fuel : Nat)
    (ihA : ∀ st c input, noEmptyCD (readAttrValueF env fuel st c input).1)
    (ihL : ∀ st acc b input, noEmptyCD (attrLoopF env fuel st acc b input).1) :
    ∀ st acc b input, noEmptyCD (attrLoopF env (fuel + 1) st acc b input).1 := by
  intro st acc b input
  rw [attrLoopF]
  split
  · -- SWITCH_PAGE
    split
    · exact noEmptyCD_nil
    · rename_i idx rest hrb
      exact ihL _ _ _ _
  · split
    · -- LITERAL
      split
      · exact noEmptyCD_nil
      · rename_i idx rest hmb
        split
        · exact noEmptyCD_nil
        · rename_i nm hgs
          split
          · rename_i toks e heq
            have h1 := ihA st [] rest
            rw [heq] at h1
            exact h1
          · rename_i toks value b1 rest1 heq
            have h1 := ihA st [] rest
            rw [heq] at h1
            exact noEmptyCD_append h1 (ihL _ _ _ _)
    · split
      · exact noEmptyCD_nil
      · split
        · exact noEmptyCD_nil
        · split
          · exact noEmptyCD_nil
          · rename_i nm hnm
            split
            · rename_i toks e heq
              have h1 := ihA st [] input
              rw [heq] at h1
              exact h1
            · rename_i toks value b1 rest1 heq
              have h1 := ihA st [] input
              rw [heq] at h1
              exact noEmptyCD_append h1 (ihL _ _ _ _)

theorem ecF_elem_noEmptyCD (env : Env) (fuel : Nat)
    (ihL : ∀ st acc b input, noEmptyCD (attrLoopF env fuel st acc b input).1)
    (ihE : ∀ k st input, noEmptyCD (ecF env fuel k st input).1) :
    ∀ b st input, noEmptyCD (ecF env (fuel + 1) (.elem b) st input).1 := by
  intro b st input
  rw [ecF]
  split
  · split
    · exact noEmptyCD_nil
    · exact noEmptyCD_nil
  · split
    · exact noEmptyCD_nil
    · split
      · exact noEmptyCD_nil
      · rename_i nm hnm
        have hattr : ∀ (toksA : List Token) (r : Except DecErr (List Attr × DSt × List Nat)),
            (if b &&& tagAttrMask = tagAttrMask then
              match readByte input with
              | .error e => (([] : List Token), Except.error e)
              | .ok (b0, rest0) => attrLoopF env fuel st [] b0 rest0
            else ([], Except.ok ([], st, input))) = (toksA, r) → noEmptyCD toksA := by
          intro toksA r heq
          by_cases hat : b &&& tagAttrMask = tagAttrMask
          · rw [if_pos hat] at heq
            cases hrb : readByte input with
            | error e =>
              rw [hrb] at heq
              cases heq
              exact noEmptyCD_nil
            | ok p =>
              obtain ⟨b0, rest0⟩ := p
              rw [hrb] at heq
              simp only [] at heq
              have h1 := ihL st [] b0 rest0
              rw [heq] at h1
              exact h1
          · rw [if_neg hat] at heq
            cases heq
            exact noEmptyCD_nil
        split
        · rename_i toksA e heq
          exact hattr toksA (.error e) heq
        · rename_i toksA attrs st1 rest1 heq
          have hA := hattr toksA (.ok (attrs, st1, rest1)) heq
          split
          · split
            · rename_i toksC e heq2
              have hC := ihE (.cont []) st1 rest1
              rw [heq2] at hC
              exact noEmptyCD_append (noEmptyCD_append hA (noEmptyCD_start nm attrs false)) hC
            · rename_i toksC st2 rest2 heq2
              have hC := ihE (.cont []) st1 rest1
              rw [heq2] at hC
              exact noEmptyCD_append
                (noEmptyCD_append (noEmptyCD_append hA (noEmptyCD_start nm attrs false)) hC)
                (noEmptyCD_endElt nm)
          · intro d hd
            rcases List.mem_append.mp hd with h | h
            · exact hA d h
            · simp at h

theorem ecF_cont_noEmptyCD (env : Env) (fuel : Nat)
    (ihE : ∀ k st input, noEmptyCD (ecF env fuel k st input).1) :
    ∀ c st input, noEmptyCD (ecF env (fuel + 1) (.cont c) st input).1 := by
  intro c st input
  rw [ecF]
  split
  · exact noEmptyCD_nil
  · rename_i b rest hrb
    split
    · split
      · rename_i toks e heq
        have h1 := noEmptyCD_charDataGo env.tbl c b rest
        rw [heq] at h1
        exact h1
      · rename_i toks c1 rest1 heq
        split
        rename_i toks2 res heq2
        have h1 := noEmptyCD_charDataGo env.tbl c b rest
        rw [heq] at h1
        have h2 := ihE (.cont c1) st rest1
        rw [heq2] at h2
        exact noEmptyCD_append h1 h2
    · split
      · split
        · exact noEmptyCD_flushCD c
        · rename_i len rest1 hmb
          split
          · exact noEmptyCD_flushCD c
          · rename_i data rest2 hrs
            split
            rename_i toks2 res heq2
            have h2 := ihE (.cont []) st rest2
            rw [heq2] at h2
            exact noEmptyCD_append
              (noEmptyCD_append (noEmptyCD_flushCD c) (noEmptyCD_opq data)) h2
      · split
        · exact noEmptyCD_flushCD c
        · split
          · exact noEmptyCD_flushCD c
          · split
            · rename_i toksE e heq
              have hE := ihE (.elem b) st rest
              rw [heq] at hE
              exact noEmptyCD_append (noEmptyCD_flushCD c) hE
            · rename_i toksE st1 rest1 heq
              split
              rename_i toks2 res heq2
              have hE := ihE (.elem b) st rest
              rw [heq] at hE
              have h2 := ihE (.cont []) st1 rest1
              rw [heq2] at h2
              exact noEmptyCD_append
                (noEmptyCD_append (noEmptyCD_flushCD c) hE) h2

theorem decoder_noEmptyCD (env : Env) : ∀ fuel,
    (∀ st c input, noEmptyCD (readAttrValueF env fuel st c input).1)
    ∧ (∀ st acc b input, noEmptyCD (attrLoopF env fuel st acc b input).1)
    ∧ (∀ k st input, noEmptyCD (ecF env fuel k st input).1) := by
  intro fuel
  induction fuel with
  | zero =>
    exact ⟨fun _ _ _ => noEmptyCD_nil, fun _ _ _ _ => noEmptyCD_nil,
      fun _ _ _ => noEmptyCD_nil⟩
  | succ f ih =>
    obtain ⟨ihA, ihL, ihE⟩ := ih
    refine ⟨readAttrValueF_noEmptyCD env f ihA, attrLoopF_noEmptyCD env f ihA ihL, ?_⟩
    intro k st input
    cases k with
    | elem b => exact ecF_elem_noEmptyCD env f ihL ihE b st input
    | cont c => exact ecF_cont_noEmptyCD env f ihE c st input

theorem bodyF_noEmptyCD (env : Env) (fuel : Nat) (st : DSt) (input : List Nat) :
    noEmptyCD (bodyF env fuel st input).1 := by
  unfold bodyF
  split
  · exact noEmptyCD_nil
  · rename_i b rest hsp
    split
    · rename_i toks e heq
      have h1 := (decoder_noEmptyCD env fuel).2.2 (.elem b) st rest
      rw [show elementF env fuel st b rest = ecF env fuel (.elem b) st rest from rfl] at heq
      rw [heq] at h1
      exact h1
    · rename_i toks st1 rest1 heq
      have h1 := (decoder_noEmptyCD env fuel).2.2 (.elem b) st rest
      rw [show elementF env fuel st b rest = ecF env fuel (.elem b) st rest from rfl] at heq
      rw [heq] at h1
      split
      · exact h1
      · exact h1

/-- C8 amended: the decoder never emits a CharData token of length zero
(the flush in sendCharData fires only on a non-nil buffer, and the buffer
becomes non-nil only by gaining at least one byte). The other half of the
claim is false: consecutive CharData tokens do occur (see the
counterexample), because a SWITCH_PAGE byte inside content takes the
element path and flushes the buffer without emitting a token. -/
theorem c8_no_empty_chardata (tags attrs : CodeSpace) (input : List Nat)
    (d : List Nat) (hd : Token.charData d ∈ (runModel tags attrs input).1) :
    d ≠ [] := by
  have key : noEmptyCD (runModel tags attrs input).1 := by
    show noEmptyCD (decodeRaw tags attrs (2 * input.length + 8) input).1
    unfold decodeRaw
    split
    · exact noEmptyCD_nil
    · rename_i h rest hrh
      split
      · rename_i toks e heq
        have h1 := bodyF_noEmptyCD { tags := tags, attrs := attrs, tbl := h.StringTable }
          (2 * input.length + 8) { tagPage := 0, attrPage := 0 } rest
        rw [heq] at h1
        exact h1
      · rename_i toks u heq
        have h1 := bodyF_noEmptyCD { tags := tags, attrs := attrs, tbl := h.StringTable }
          (2 * input.length + 8) { tagPage := 0, attrPage := 0 } rest
        rw [heq] at h1
        exact h1
  exact key d hd

theorem c8_no_empty_chardata_witness :
    Token.charData [97] ∈ (runModel [(0, [(5, [65])])] [] [1, 1, 3, 0, 0x45, 3, 97, 0, 1]).1
    ∧ ([97] : List Nat) ≠ [] :=
  ⟨by decide, c8_no_empty_chardata [(0, [(5, [65])])] [] [1, 1, 3, 0, 0x45, 3, 97, 0, 1]
    [97] (by decide)⟩

end Wbxml

